import Mathlib

/-!
Verification of the tool-call orchestration layer of the BU-Senior-Design-EMD-Serono
repository.  The orchestration components (circuit breaker, router, health monitor,
cache key generator, retry policy, failover handler, result optimizer) are embedded
shallowly from the Python reference code in the system-design document
(`src/unnamed/part_007`); the two MCP server request handlers are embedded from
`src/servers/pubchem/index.js` and `src/unnamed/part_000`.

Numeric time values (`time.time()`, delays) are modelled as rationals; machine
floats carry no rounding effects in the properties considered here.
-/

namespace Orchestration

/-! ### Circuit breaker (`CircuitBreaker`, src/unnamed/part_007 lines 1159-1189)

The Python `call` method first handles the `OPEN` state (possibly moving to
`HALF_OPEN` or raising `CircuitBreakerOpenError` without invoking the wrapped
function), then runs the wrapped function and updates the counters.  We split it
into `checkOpen` (the `OPEN`-state guard) and `settle` (the try/except body); the
outcome of the wrapped call is a boolean (`true` = the awaited call returned,
`false` = it raised or timed out). -/

inductive BreakerState where
  | CLOSED
  | OPEN
  | HALF_OPEN
deriving DecidableEq

structure BreakerConfig where
  failure_threshold : Nat
  reset_timeout : ℚ
deriving DecidableEq

structure CircuitBreaker where
  failures : Nat
  state : BreakerState
  last_failure_time : Option ℚ
deriving DecidableEq

/-- `__init__`: `failures = 0`, `state = "CLOSED"`, `last_failure_time = None`. -/
def CircuitBreaker.init : CircuitBreaker :=
  { failures := 0, state := .CLOSED, last_failure_time := none }

/-- The `if self.state == "OPEN"` guard of `call`: `none` means the call is
rejected with `CircuitBreakerOpenError` (the wrapped function is not invoked);
`some b1` means the call proceeds with breaker state `b1`.  In the source a
`None` `last_failure_time` with state `OPEN` is unreachable (every transition to
`OPEN` records a failure time first); we map it to a rejection. -/
def checkOpen (cfg : BreakerConfig) (b : CircuitBreaker) (now : ℚ) :
    Option CircuitBreaker :=
  match b.state with
  | .OPEN =>
    match b.last_failure_time with
    | some t =>
      if now - t > cfg.reset_timeout then
        some { b with state := .HALF_OPEN }
      else
        none
    | none => none
  | _ => some b

/-- The try/except body of `call`: on success, `HALF_OPEN` closes and the
failure counter resets; on failure the counter increments, the failure time is
recorded, and reaching `failure_threshold` opens the breaker. -/
def settle (cfg : BreakerConfig) (b1 : CircuitBreaker) (now : ℚ) (ok : Bool) :
    CircuitBreaker :=
  if ok then
    { b1 with
      state := if b1.state = .HALF_OPEN then .CLOSED else b1.state
      failures := 0 }
  else
    { failures := b1.failures + 1
      state :=
        if cfg.failure_threshold ≤ b1.failures + 1 then .OPEN else b1.state
      last_failure_time := some now }

inductive CallResult where
  | success
  | failureRaised
  | rejectedOpen
deriving DecidableEq

structure CallStep where
  breaker : CircuitBreaker
  result : CallResult
  invoked : Bool
deriving DecidableEq

/-- `CircuitBreaker.call`, assembled from `checkOpen` and `settle`.  `invoked`
records whether the wrapped provider function was executed. -/
def CircuitBreaker.call (cfg : BreakerConfig) (b : CircuitBreaker) (now : ℚ)
    (ok : Bool) : CallStep :=
  match checkOpen cfg b now with
  | none => { breaker := b, result := .rejectedOpen, invoked := false }
  | some b1 =>
    { breaker := settle cfg b1 now ok
      result := if ok then .success else .failureRaised
      invoked := true }

/-- Run a sequence of failing calls (one per timestamp in the list). -/
def runFailures (cfg : BreakerConfig) (b : CircuitBreaker) (times : List ℚ) :
    CircuitBreaker :=
  times.foldl (fun b' t => (CircuitBreaker.call cfg b' t false).breaker) b

/-- States of a breaker reachable from `init` by any sequence of calls. -/
inductive Reachable (cfg : BreakerConfig) : CircuitBreaker → Prop where
  | init : Reachable cfg .init
  | step (b : CircuitBreaker) (now : ℚ) (ok : Bool) :
      Reachable cfg b → Reachable cfg ((CircuitBreaker.call cfg b now ok).breaker)

lemma checkOpen_some (cfg : BreakerConfig) (b b1 : CircuitBreaker) (now : ℚ)
    (h : checkOpen cfg b now = some b1) :
    (b.state = .OPEN ∧ b1 = { b with state := .HALF_OPEN }) ∨
      (b.state ≠ .OPEN ∧ b1 = b) := by
  by_cases hbs : b.state = .OPEN
  · cases hlft : b.last_failure_time with
    | none => simp [checkOpen, hbs, hlft] at h
    | some t =>
      simp only [checkOpen, hbs, hlft] at h
      by_cases hcond : now - t > cfg.reset_timeout
      · simp [hcond] at h
        exact Or.inl ⟨hbs, h.symm⟩
      · simp [hcond] at h
  · refine Or.inr ⟨hbs, ?_⟩
    cases hst : b.state with
    | OPEN => exact absurd hst hbs
    | CLOSED => simp [checkOpen, hst] at h; exact h.symm
    | HALF_OPEN => simp [checkOpen, hst] at h; exact h.symm

lemma settle_true_state (cfg : BreakerConfig) (b1 : CircuitBreaker) (now : ℚ) :
    (settle cfg b1 now true).state =
      (if b1.state = .HALF_OPEN then .CLOSED else b1.state) ∧
    (settle cfg b1 now true).failures = 0 := by
  simp [settle]

lemma settle_false_state (cfg : BreakerConfig) (b1 : CircuitBreaker) (now : ℚ) :
    (settle cfg b1 now false).state =
      (if cfg.failure_threshold ≤ b1.failures + 1 then .OPEN else b1.state) ∧
    (settle cfg b1 now false).failures = b1.failures + 1 ∧
    (settle cfg b1 now false).last_failure_time = some now := by
  simp [settle]

/-- Invariant: in every reachable breaker state that is not `CLOSED`, the
failure counter has already reached the threshold (the breaker left `CLOSED`
exactly when the counter hit `failure_threshold`, and only a success resets it). -/
lemma reachable_failures_ge (cfg : BreakerConfig) (b : CircuitBreaker)
    (hr : Reachable cfg b) (hst : b.state ≠ .CLOSED) :
    cfg.failure_threshold ≤ b.failures := by
  induction hr with
  | init => exact absurd rfl hst
  | step b now ok hr ih =>
    cases hchk : checkOpen cfg b now with
    | none =>
      have hcb : (CircuitBreaker.call cfg b now ok).breaker = b := by
        simp [CircuitBreaker.call, hchk]
      rw [hcb] at hst ⊢
      exact ih hst
    | some b1 =>
      have hcb : (CircuitBreaker.call cfg b now ok).breaker = settle cfg b1 now ok := by
        simp [CircuitBreaker.call, hchk]
      rw [hcb] at hst ⊢
      cases ok with
      | true =>
        exfalso
        rw [(settle_true_state cfg b1 now).1] at hst
        by_cases hho : b1.state = .HALF_OPEN
        · exact hst (by simp [hho])
        · rcases checkOpen_some cfg b b1 now hchk with ⟨_, hb1⟩ | ⟨hbo, hb1⟩
          · exact hho (by simp [hb1])
          · simp only [if_neg hho] at hst
            rw [hb1] at hho hst
            cases h2 : b.state with
            | OPEN => exact hbo h2
            | CLOSED => exact hst h2
            | HALF_OPEN => exact hho h2
      | false =>
        rw [(settle_false_state cfg b1 now).1] at hst
        rw [(settle_false_state cfg b1 now).2.1]
        by_cases hthr : cfg.failure_threshold ≤ b1.failures + 1
        · exact hthr
        · exfalso
          simp only [if_neg hthr] at hst
          rcases checkOpen_some cfg b b1 now hchk with ⟨hbo, hb1⟩ | ⟨hbo, hb1⟩
          · have hge : cfg.failure_threshold ≤ b.failures := ih (by simp [hbo])
            have : b1.failures = b.failures := by simp [hb1]
            omega
          · rw [hb1] at hst
            have hge : cfg.failure_threshold ≤ b.failures := ih hst
            have : b1.failures = b.failures := by rw [hb1]
            omega

lemma runFailures_closed (cfg : BreakerConfig) :
    ∀ (times : List ℚ) (b : CircuitBreaker), b.state = .CLOSED →
      times ≠ [] → b.failures + times.length = cfg.failure_threshold →
      (runFailures cfg b times).state = .OPEN := by
  intro times
  induction times with
  | nil => intro b _ hne _; exact absurd rfl hne
  | cons t ts ih =>
    intro b hst _ hsum
    have hstep : (CircuitBreaker.call cfg b t false).breaker =
        { failures := b.failures + 1
          state := if cfg.failure_threshold ≤ b.failures + 1 then .OPEN else b.state
          last_failure_time := some t } := by
      simp [CircuitBreaker.call, checkOpen, hst, settle]
    cases ts with
    | nil =>
      have hthr : cfg.failure_threshold ≤ b.failures + 1 := by
        simp at hsum; omega
      show (runFailures cfg b [t]).state = .OPEN
      simp only [runFailures, List.foldl_cons, List.foldl_nil]
      rw [hstep]
      simp [hthr]
    | cons t2 ts2 =>
      have hlt : ¬ cfg.failure_threshold ≤ b.failures + 1 := by
        simp at hsum; omega
      have hrw : runFailures cfg b (t :: t2 :: ts2) =
          runFailures cfg ((CircuitBreaker.call cfg b t false).breaker) (t2 :: ts2) := by
        simp [runFailures]
      rw [hrw, hstep]
      apply ih
      · simp [hlt, hst]
      · simp
      · simp at hsum ⊢; omega

/-- **C1**: a breaker starting in `CLOSED` with a zero failure counter moves to
`OPEN` after exactly `failure_threshold` consecutive failed calls, and any
successful call that passes through the breaker resets the failure counter to
zero (so only consecutive failures count toward the threshold). -/
theorem C1_consecutive_failures_open (cfg : BreakerConfig) (b : CircuitBreaker)
    (times : List ℚ)
    (hst : b.state = .CLOSED) (hf : b.failures = 0)
    (hpos : 1 ≤ cfg.failure_threshold)
    (hlen : times.length = cfg.failure_threshold) :
    (runFailures cfg b times).state = .OPEN ∧
      ∀ (b' : CircuitBreaker) (now : ℚ),
        (CircuitBreaker.call cfg b' now true).invoked = true →
        (CircuitBreaker.call cfg b' now true).breaker.failures = 0 := by
  constructor
  · apply runFailures_closed cfg times b hst
    · intro h
      subst h
      simp at hlen
      omega
    · omega
  · intro b' now hinv
    unfold CircuitBreaker.call at hinv ⊢
    cases hchk : checkOpen cfg b' now with
    | none => simp [hchk] at hinv
    | some b1 => simp [hchk, settle]

def cfgW1 : BreakerConfig := { failure_threshold := 2, reset_timeout := 300 }

/-- Witness for C1: with threshold 2, two consecutive failures from the initial
state open the breaker. -/
theorem C1_consecutive_failures_open_witness :
    (CircuitBreaker.init.state = .CLOSED ∧ CircuitBreaker.init.failures = 0 ∧
      1 ≤ cfgW1.failure_threshold ∧ ([(0:ℚ), 1]).length = cfgW1.failure_threshold) ∧
    (runFailures cfgW1 .init [0, 1]).state = .OPEN :=
  ⟨⟨rfl, rfl, by decide, by decide⟩,
    (C1_consecutive_failures_open cfgW1 .init [0, 1] rfl rfl (by decide) (by decide)).1⟩

/-- **C2**: when the breaker admits a trial call in `HALF_OPEN` (which happens
inside `call` after `reset_timeout` has elapsed in `OPEN`), the trial call is
allowed through; a successful trial closes the breaker and resets its failure
counter to zero, a failed trial returns it to `OPEN` and restarts the
reset-timeout clock (`last_failure_time := now`); either way the breaker leaves
`HALF_OPEN`, so exactly one trial call runs in that state. -/
theorem C2_half_open_trial (cfg : BreakerConfig) (b b1 : CircuitBreaker) (now : ℚ)
    (hr : Reachable cfg b) (hchk : checkOpen cfg b now = some b1)
    (hho : b1.state = .HALF_OPEN) :
    ((CircuitBreaker.call cfg b now true).invoked = true ∧
      (CircuitBreaker.call cfg b now false).invoked = true) ∧
    (settle cfg b1 now true).state = .CLOSED ∧
    (settle cfg b1 now true).failures = 0 ∧
    (settle cfg b1 now false).state = .OPEN ∧
    (settle cfg b1 now false).last_failure_time = some now ∧
    (∀ ok : Bool, (settle cfg b1 now ok).state ≠ .HALF_OPEN) := by
  have hfail : cfg.failure_threshold ≤ b1.failures := by
    rcases checkOpen_some cfg b b1 now hchk with ⟨hbo, hb1⟩ | ⟨hbo, hb1⟩
    · have := reachable_failures_ge cfg b hr (by simp [hbo])
      simpa [hb1] using this
    · rw [hb1] at hho ⊢
      exact reachable_failures_ge cfg b hr (by simp [hho])
  have hthr : cfg.failure_threshold ≤ b1.failures + 1 := by omega
  refine ⟨⟨?_, ?_⟩, ?_, ?_, ?_, ?_, ?_⟩
  · simp [CircuitBreaker.call, hchk]
  · simp [CircuitBreaker.call, hchk]
  · simp [settle, hho]
  · simp [settle]
  · simp [settle, hthr]
  · simp [settle]
  · intro ok
    cases ok with
    | true => simp [settle, hho]
    | false => simp [settle, hthr]

def cfgW2 : BreakerConfig := { failure_threshold := 1, reset_timeout := 10 }

def bW2 : CircuitBreaker := (CircuitBreaker.call cfgW2 .init 0 false).breaker

def b1W2 : CircuitBreaker :=
  { failures := 1, state := .HALF_OPEN, last_failure_time := some 0 }

/-- Witness for C2: with threshold 1, one failure at time 0 opens the breaker;
a call at time 20 (past the reset timeout of 10) runs as the `HALF_OPEN` trial. -/
theorem C2_half_open_trial_witness :
    (checkOpen cfgW2 bW2 20 = some b1W2 ∧ b1W2.state = .HALF_OPEN) ∧
    ((settle cfgW2 b1W2 20 true).state = .CLOSED ∧
      (settle cfgW2 b1W2 20 true).failures = 0 ∧
      (settle cfgW2 b1W2 20 false).state = .OPEN ∧
      (settle cfgW2 b1W2 20 false).last_failure_time = some 20) := by
  have hchk : checkOpen cfgW2 bW2 20 = some b1W2 := by
    norm_num [checkOpen, bW2, b1W2, cfgW2, CircuitBreaker.call, CircuitBreaker.init, settle]
  have h := C2_half_open_trial cfgW2 bW2 b1W2 20
    (Reachable.step _ 0 false Reachable.init) hchk rfl
  exact ⟨⟨hchk, rfl⟩, h.2.1, h.2.2.1, h.2.2.2.1, h.2.2.2.2.1⟩

def cfgW3 : BreakerConfig := { failure_threshold := 1, reset_timeout := 300 }

def bW3 : CircuitBreaker := (CircuitBreaker.call cfgW3 .init 0 false).breaker

/-- **C3 counterexample**: a reachable breaker is `OPEN` with its last failure at
time 0 and `reset_timeout = 300`; at time 300 — when exactly `reset_timeout` has
elapsed — the source still rejects the call (`elapsed > reset_timeout` is strict)
and does not move to `HALF_OPEN`, contradicting the claim that once resetTimeout
has elapsed the breaker moves to `HALF_OPEN` instead of rejecting. -/
theorem C3_open_rejects_cex :
    bW3.state = .OPEN ∧ bW3.last_failure_time = some 0 ∧
    (300 : ℚ) - 0 = cfgW3.reset_timeout ∧
    CircuitBreaker.call cfgW3 bW3 300 true =
      { breaker := bW3, result := .rejectedOpen, invoked := false } := by
  refine ⟨?_, ?_, ?_, ?_⟩ <;>
    norm_num [bW3, cfgW3, CircuitBreaker.call, checkOpen, settle, CircuitBreaker.init]

/-- **C3 (amended)**: whenever a breaker is `OPEN` and at most `reset_timeout`
has elapsed since the last failure, the call is rejected immediately with a
breaker-open error, the wrapped provider function is never invoked and the
breaker is unchanged; once strictly more than `reset_timeout` has elapsed, the
breaker moves to `HALF_OPEN` and the call is attempted instead of being rejected. -/
theorem C3_open_rejects_amended (cfg : BreakerConfig) (b : CircuitBreaker)
    (now t : ℚ) (hst : b.state = .OPEN) (hlft : b.last_failure_time = some t) :
    (now - t ≤ cfg.reset_timeout →
      CircuitBreaker.call cfg b now true =
        { breaker := b, result := .rejectedOpen, invoked := false } ∧
      CircuitBreaker.call cfg b now false =
        { breaker := b, result := .rejectedOpen, invoked := false }) ∧
    (cfg.reset_timeout < now - t →
      checkOpen cfg b now = some { b with state := .HALF_OPEN } ∧
      ∀ ok : Bool, (CircuitBreaker.call cfg b now ok).invoked = true) := by
  constructor
  · intro hle
    have hcond : ¬ (now - t > cfg.reset_timeout) := not_lt.mpr hle
    constructor <;> simp [CircuitBreaker.call, checkOpen, hst, hlft, hcond]
  · intro hgt
    have hchk : checkOpen cfg b now = some { b with state := .HALF_OPEN } := by
      simp [checkOpen, hst, hlft, hgt]
    exact ⟨hchk, fun ok => by simp [CircuitBreaker.call, hchk]⟩

/-- Witness for the amended C3: at time 100 (elapsed 100 ≤ 300) the call is
rejected without invoking the provider; at time 301 (elapsed 301 > 300) the
breaker admits the call in `HALF_OPEN`. -/
theorem C3_open_rejects_amended_witness :
    (bW3.state = .OPEN ∧ bW3.last_failure_time = some 0 ∧
      (100 : ℚ) - 0 ≤ cfgW3.reset_timeout ∧ cfgW3.reset_timeout < (301 : ℚ) - 0) ∧
    (CircuitBreaker.call cfgW3 bW3 100 false =
      { breaker := bW3, result := .rejectedOpen, invoked := false }) ∧
    (checkOpen cfgW3 bW3 301 = some { bW3 with state := .HALF_OPEN }) := by
  have hst : bW3.state = .OPEN := by
    norm_num [bW3, cfgW3, CircuitBreaker.call, checkOpen, settle, CircuitBreaker.init]
  have hlft : bW3.last_failure_time = some 0 := by
    norm_num [bW3, cfgW3, CircuitBreaker.call, checkOpen, settle, CircuitBreaker.init]
  refine ⟨⟨hst, hlft, by norm_num [cfgW3], by norm_num [cfgW3]⟩, ?_, ?_⟩
  · exact (C3_open_rejects_amended cfgW3 bW3 100 0 hst hlft).1
      (by norm_num [cfgW3]) |>.2
  · exact (C3_open_rejects_amended cfgW3 bW3 301 0 hst hlft).2
      (by norm_num [cfgW3]) |>.1

/-! ### Router (`MCPRouter.select_server`, src/unnamed/part_007 lines 806-838)

`select_server` fetches the candidate servers for a tool, raises
`ToolNotFoundError` when there are none, filters them through
`health_monitor.is_healthy`, falls back to `failover_handler.get_backup_server`
when no candidate is healthy, and otherwise applies the configured selection
strategy to the healthy list.  The selection strategies (`_round_robin_select`,
`_least_loaded_select`, `_hybrid_select`) have no bodies in the repository; they
are modelled as an arbitrary function `strategy` that picks an element of the
list it is given. -/

inductive RouterError where
  | ToolNotFoundError
  | NoProviderAvailableError
deriving DecidableEq

structure HealthRecord where
  breaker : BreakerState
  score : ℚ

/-- Modelled from the spec: `HealthMonitor.is_healthy` is only called in the
source; §4.2 of the spec defines a provider as healthy iff its breaker state is
not `OPEN` and its health score exceeds a configurable floor (default 0.3). -/
def is_healthy (scoreFloor : ℚ) (h : HealthRecord) : Bool :=
  decide (h.breaker ≠ .OPEN ∧ scoreFloor < h.score)

/-- Modelled from the spec: `FailoverHandler.get_backup_server` has no body in
the repository; §4.3 step 3 of the spec falls back to providers whose breaker is
`HALF_OPEN` (probationary retry) before declaring total failure
(`NoProviderAvailable`). -/
def get_backup_server (hm : String → HealthRecord) (candidates : List String) :
    Except RouterError String :=
  match candidates.filter (fun s => decide ((hm s).breaker = .HALF_OPEN)) with
  | [] => .error .NoProviderAvailableError
  | s :: _ => .ok s

/-- `MCPRouter.select_server`: candidates, health filter, fallback, strategy. -/
def MCPRouter.select_server (scoreFloor : ℚ) (hm : String → HealthRecord)
    (strategy : List String → String) (candidate_servers : List String) :
    Except RouterError String :=
  if candidate_servers.isEmpty then .error .ToolNotFoundError
  else
    let healthy_servers :=
      candidate_servers.filter (fun s => is_healthy scoreFloor (hm s))
    if healthy_servers.isEmpty then get_backup_server hm candidate_servers
    else .ok (strategy healthy_servers)

/-- **C4**: for every operation the Router never returns a provider whose
breaker is `OPEN` (in fact every successfully selected provider has a non-`OPEN`
breaker, which in particular covers the case where a non-`OPEN` candidate
exists), and candidates are filtered to healthy providers before the selection
strategy is applied: whenever the healthy-filtered list is nonempty, the result
is the strategy applied to exactly that list and is itself healthy. -/
theorem C4_router_never_selects_open (scoreFloor : ℚ) (hm : String → HealthRecord)
    (strategy : List String → String) (candidates : List String) (p : String)
    (hstrat : ∀ l : List String, l ≠ [] → strategy l ∈ l)
    (hsel : MCPRouter.select_server scoreFloor hm strategy candidates = .ok p) :
    (hm p).breaker ≠ .OPEN ∧
      (candidates.filter (fun s => is_healthy scoreFloor (hm s)) ≠ [] →
        p = strategy (candidates.filter (fun s => is_healthy scoreFloor (hm s))) ∧
        is_healthy scoreFloor (hm p) = true) := by
  unfold MCPRouter.select_server at hsel
  by_cases hc : candidates.isEmpty
  · rw [if_pos hc] at hsel
    exact absurd hsel (by simp)
  · rw [if_neg hc] at hsel
    simp only [] at hsel
    by_cases hhe :
      (candidates.filter (fun s => is_healthy scoreFloor (hm s))).isEmpty
    · rw [if_pos hhe] at hsel
      unfold get_backup_server at hsel
      cases hfo : candidates.filter (fun s => decide ((hm s).breaker = .HALF_OPEN)) with
      | nil =>
        rw [hfo] at hsel
        exact absurd hsel (by simp)
      | cons s rest =>
        rw [hfo] at hsel
        have hps : p = s := by
          simpa using hsel.symm
        have hmem : s ∈ candidates.filter
            (fun s => decide ((hm s).breaker = .HALF_OPEN)) := by
          rw [hfo]; exact List.mem_cons_self s rest
        have hho : (hm s).breaker = .HALF_OPEN := by
          simpa using (List.mem_filter.mp hmem).2
        refine ⟨by rw [hps, hho]; simp, ?_⟩
        intro hne
        exact absurd (List.isEmpty_iff.mp hhe) hne
    · rw [if_neg hhe] at hsel
      have hps : p = strategy (candidates.filter (fun s => is_healthy scoreFloor (hm s))) := by
        simpa using hsel.symm
      have hne : candidates.filter (fun s => is_healthy scoreFloor (hm s)) ≠ [] := by
        intro h
        rw [h] at hhe
        exact hhe rfl
      have hmem := hstrat _ hne
      rw [← hps] at hmem
      have hfp : is_healthy scoreFloor (hm p) = true :=
        (List.mem_filter.mp hmem).2
      have hopen : (hm p).breaker ≠ .OPEN := by
        have hd : decide ((hm p).breaker ≠ .OPEN ∧ scoreFloor < (hm p).score) = true := hfp
        exact (of_decide_eq_true hd).1
      exact ⟨hopen, fun _ => ⟨hps, hfp⟩⟩

def hmW4 : String → HealthRecord :=
  fun s => if s = "A" then ⟨.OPEN, 1⟩ else ⟨.CLOSED, 1⟩

/-- Witness for C4: provider "A" has an `OPEN` breaker, "B" is healthy; the
router (head-of-list strategy) selects "B", whose breaker is not `OPEN`. -/
theorem C4_router_never_selects_open_witness :
    MCPRouter.select_server (3/10) hmW4 (fun l => l.headD "") ["A", "B"] = .ok "B" ∧
    (hmW4 "B").breaker ≠ .OPEN := by
  have hA : hmW4 "A" = ⟨.OPEN, 1⟩ := by simp [hmW4]
  have hB : hmW4 "B" = ⟨.CLOSED, 1⟩ := by simp [hmW4]
  have hhA : is_healthy (3/10) (hmW4 "A") = false := by
    rw [hA]; simp [is_healthy]
  have hhB : is_healthy (3/10) (hmW4 "B") = true := by
    rw [hB]; simp [is_healthy]; norm_num
  have hfilter : List.filter (fun s => is_healthy (3/10) (hmW4 s)) ["A", "B"] = ["B"] := by
    simp [List.filter, hhA, hhB]
  have hsel : MCPRouter.select_server (3/10) hmW4 (fun l => l.headD "") ["A", "B"] = .ok "B" := by
    simp [MCPRouter.select_server, hfilter]
  refine ⟨hsel, ?_⟩
  have hstrat : ∀ l : List String, l ≠ [] → l.headD "" ∈ l := by
    intro l hl
    cases l with
    | nil => exact absurd rfl hl
    | cons a t => simp
  exact (C4_router_never_selects_open (3/10) hmW4 (fun l => l.headD "")
    ["A", "B"] "B" hstrat hsel).1

/-! ### Health monitor score (`HealthMonitor.get_health_score`,
src/unnamed/part_007 lines 870-878)

The source computes `error_rate_score = 1 - self.get_error_rate(server)` and
returns `availability * 0.4 + latency_score * 0.3 + error_rate_score * 0.3`;
the three sub-terms are documented as lying in `[0,1]`.  The sub-term getters
(`get_availability`, `get_latency_score`, `get_error_rate`) have no bodies in
the repository, so they enter as parameters constrained to `[0,1]` exactly as
the claim states. -/

def HealthMonitor.get_health_score (availability latency_score error_rate : ℚ) : ℚ :=
  availability * 0.4 + latency_score * 0.3 + (1 - error_rate) * 0.3

/-- **C6**: for sub-terms in `[0,1]` the health score equals
`0.4*availability + 0.3*latencyScore + 0.3*(1-errorRate)` and lies in `[0,1]`
(in particular for all-failure windows, availability = latencyScore = 0 and
errorRate = 1, and all-success windows, availability = latencyScore = 1 and
errorRate = 0). -/
theorem C6_health_score_formula_bounds (availability latency_score error_rate : ℚ)
    (ha : 0 ≤ availability) (ha1 : availability ≤ 1)
    (hl : 0 ≤ latency_score) (hl1 : latency_score ≤ 1)
    (he : 0 ≤ error_rate) (he1 : error_rate ≤ 1) :
    HealthMonitor.get_health_score availability latency_score error_rate =
      0.4 * availability + 0.3 * latency_score + 0.3 * (1 - error_rate) ∧
    0 ≤ HealthMonitor.get_health_score availability latency_score error_rate ∧
    HealthMonitor.get_health_score availability latency_score error_rate ≤ 1 := by
  unfold HealthMonitor.get_health_score
  refine ⟨by ring, ?_, ?_⟩
  · nlinarith
  · nlinarith

/-- Witness for C6: the all-success window (availability = latencyScore = 1,
errorRate = 0) yields a score of exactly 1, within bounds. -/
theorem C6_health_score_formula_bounds_witness :
    ((0:ℚ) ≤ 1 ∧ (1:ℚ) ≤ 1 ∧ (0:ℚ) ≤ 0 ∧ (0:ℚ) ≤ 1) ∧
    (0 ≤ HealthMonitor.get_health_score 1 1 0 ∧
      HealthMonitor.get_health_score 1 1 0 ≤ 1) :=
  ⟨⟨by norm_num, le_refl 1, le_refl 0, by norm_num⟩,
    (C6_health_score_formula_bounds 1 1 0 (by norm_num) (by norm_num)
      (by norm_num) (by norm_num) (by norm_num) (by norm_num)).2⟩

/-! ### Cache key generation (`CacheKeyGenerator.generate_key`,
src/unnamed/part_007 lines 951-970)

`generate_key` normalizes the parameters (`_normalize_params`), applies
caller-supplied synonym resolution (`_apply_synonyms`), serializes with
`json.dumps(normalized, sort_keys=True)`, hashes with SHA-256, truncates the
hex digest to 16 characters and prefixes the tool name.  Parameters are a JSON
object: a key-ordered association list with distinct keys.  SHA-256 enters as
an arbitrary function `hash` — only its determinism matters for key equality. -/

inductive JVal where
  | str (s : String)
  | num (n : Int)
deriving DecidableEq

def dropLeadWS : List Char → List Char
  | [] => []
  | c :: cs => if c.isWhitespace then dropLeadWS cs else c :: cs

def stripWS (cs : List Char) : List Char :=
  dropLeadWS (dropLeadWS cs.reverse).reverse

/-- Modelled from the spec: `_normalize_params` has no body in the repository;
§4.4 prescribes case/whitespace normalization for string arguments (stable key
ordering is realized by `sort_keys=True` below).  String values are lower-cased
and stripped of surrounding whitespace; other values are unchanged. -/
def normString (s : String) : String :=
  String.mk (stripWS (s.data.map Char.toLower))

def normValue : JVal → JVal
  | .str s => .str (normString s)
  | .num n => .num n

def normalize_params (ps : List (String × JVal)) : List (String × JVal) :=
  ps.map (fun kv => (kv.1, normValue kv.2))

/-- Modelled from the spec: `_apply_synonyms` has no body in the repository;
§4.4 resolves synonyms through a caller-supplied mapping on argument values. -/
def apply_synonyms (syn : JVal → JVal) (ps : List (String × JVal)) :
    List (String × JVal) :=
  ps.map (fun kv => (kv.1, syn kv.2))

def keyLE (a b : String × JVal) : Prop := a.1 ≤ b.1

def keyLT (a b : String × JVal) : Prop := a.1 < b.1

instance : DecidableRel keyLE := fun a b => inferInstanceAs (Decidable (a.1 ≤ b.1))

instance : IsTotal (String × JVal) keyLE := ⟨fun a b => le_total a.1 b.1⟩

instance : IsTrans (String × JVal) keyLE := ⟨fun _ _ _ h1 h2 => le_trans h1 h2⟩

instance : IsAntisymm (String × JVal) keyLT :=
  ⟨fun a b h1 h2 =>
    (lt_asymm (show a.1 < b.1 from h1) (show b.1 < a.1 from h2)).elim⟩

def renderValue : JVal → String
  | .str s => "\"" ++ s ++ "\""
  | .num n => toString n

/-- `json.dumps(normalized, sort_keys=True)`: entries sorted by key, rendered
as a JSON object. -/
def dumps_sorted (ps : List (String × JVal)) : String :=
  "\x7b" ++ String.intercalate ", "
      ((List.insertionSort keyLE ps).map
        (fun kv => "\"" ++ kv.1 ++ "\": " ++ renderValue kv.2)) ++ "\x7d"

/-- `CacheKeyGenerator.generate_key`. -/
def CacheKeyGenerator.generate_key (hash : String → String) (syn : JVal → JVal)
    (tool_name : String) (parameters : List (String × JVal)) : String :=
  tool_name ++ ":" ++
    (hash (dumps_sorted (apply_synonyms syn (normalize_params parameters)))).take 16

/-- Semantic equivalence of argument maps, from the claim: equal up to argument
key ordering (list permutation) and up to case/whitespace of string argument
values (normalization). -/
def SemEquiv (a b : List (String × JVal)) : Prop :=
  (normalize_params a).Perm (normalize_params b)

lemma sorted_keyLT_of_nodup {l : List (String × JVal)}
    (hs : l.Sorted keyLE) (hn : (l.map Prod.fst).Nodup) : l.Sorted keyLT := by
  have hp : l.Pairwise (fun a b : String × JVal => a.1 ≠ b.1) :=
    List.pairwise_map.mp hn
  exact (hs.and hp).imp (fun h => lt_of_le_of_ne h.1 h.2)

lemma insertionSort_eq_of_perm {l₁ l₂ : List (String × JVal)}
    (hp : l₁.Perm l₂) (hn : (l₁.map Prod.fst).Nodup) :
    List.insertionSort keyLE l₁ = List.insertionSort keyLE l₂ := by
  have hn₁ : ((List.insertionSort keyLE l₁).map Prod.fst).Nodup :=
    (((List.perm_insertionSort keyLE l₁).map Prod.fst).nodup_iff).mpr hn
  have hn₂ : ((List.insertionSort keyLE l₂).map Prod.fst).Nodup := by
    refine (((List.perm_insertionSort keyLE l₂).map Prod.fst).nodup_iff).mpr ?_
    exact ((hp.map Prod.fst).nodup_iff).mp hn
  apply List.eq_of_perm_of_sorted (r := keyLT)
  · exact (List.perm_insertionSort keyLE l₁).trans
      (hp.trans (List.perm_insertionSort keyLE l₂).symm)
  · exact sorted_keyLT_of_nodup (List.sorted_insertionSort keyLE l₁) hn₁
  · exact sorted_keyLT_of_nodup (List.sorted_insertionSort keyLE l₂) hn₂

/-- **C5**: for every tool name and every pair of argument maps that are equal
up to argument key ordering and case/whitespace of string argument values
(with distinct argument keys, as in a JSON object), `generate_key` produces
the identical cache key — for every hash function and synonym mapping. -/
theorem C5_cache_key_semantic_equivalence (a b : List (String × JVal))
    (hsem : SemEquiv a b) (hnd : (a.map Prod.fst).Nodup)
    (hash : String → String) (syn : JVal → JVal) (tool_name : String) :
    CacheKeyGenerator.generate_key hash syn tool_name a =
      CacheKeyGenerator.generate_key hash syn tool_name b := by
  unfold CacheKeyGenerator.generate_key
  suffices h : dumps_sorted (apply_synonyms syn (normalize_params a)) =
      dumps_sorted (apply_synonyms syn (normalize_params b)) by rw [h]
  unfold dumps_sorted
  suffices h : List.insertionSort keyLE (apply_synonyms syn (normalize_params a)) =
      List.insertionSort keyLE (apply_synonyms syn (normalize_params b)) by rw [h]
  apply insertionSort_eq_of_perm
  · exact hsem.map _
  · have hkeys : (apply_synonyms syn (normalize_params a)).map Prod.fst =
        a.map Prod.fst := by
      simp [apply_synonyms, normalize_params, List.map_map, Function.comp]
    rw [hkeys]
    exact hnd

def aW5 : List (String × JVal) := [("name", .str "Aspirin"), ("max", .num 5)]

def bW5 : List (String × JVal) := [("max", .num 5), ("name", .str " aspirin ")]

/-- Witness for C5: `{name: "Aspirin", max: 5}` and `{max: 5, name: " aspirin "}`
differ only in key order and in case/whitespace of the string value, and get
the same cache key (here with the identity hash and synonym functions). -/
theorem C5_cache_key_semantic_equivalence_witness :
    (SemEquiv aW5 bW5 ∧ (aW5.map Prod.fst).Nodup) ∧
    CacheKeyGenerator.generate_key id id "pubchem_compound_search" aW5 =
      CacheKeyGenerator.generate_key id id "pubchem_compound_search" bW5 := by
  have hsem : SemEquiv aW5 bW5 := by
    unfold SemEquiv aW5 bW5
    decide
  have hnd : (aW5.map Prod.fst).Nodup := by decide
  exact ⟨⟨hsem, hnd⟩,
    C5_cache_key_semantic_equivalence aW5 bW5 hsem hnd id id "pubchem_compound_search"⟩

/-! ### Retry policy (`RetryPolicy`, src/unnamed/part_007 lines 1084-1126)

`execute_with_retry` loops `for attempt in range(max_retries)`; a
`RetryableError` on the last attempt re-raises, otherwise the loop sleeps
`min(base_delay * exponential_base ** attempt, max_delay) + jitter` (with
`jitter = random.uniform(0, delay * 0.1)`) and retries; a `NonRetryableError`
re-raises immediately.  The wrapped coroutine is modelled as a map from attempt
index to outcome, and the random jitter as a map from attempt index to the
drawn value.  When `max_retries = 0` the loop body never runs and the Python
function falls through returning `None` (`noAttempt`). -/

structure RetryPolicy where
  max_retries : Nat
  base_delay : ℚ
  max_delay : ℚ
  exponential_base : ℚ

inductive AttemptOutcome (α : Type) where
  | ok (a : α)
  | retryable
  | nonRetryable

inductive RetryResult (α : Type) where
  | ok (a : α)
  | errRetryable
  | errNonRetryable
  | noAttempt

/-- `delay = min(base_delay * exponential_base ** attempt, max_delay)`. -/
def backoff_delay (p : RetryPolicy) (attempt : Nat) : ℚ :=
  min (p.base_delay * p.exponential_base ^ attempt) p.max_delay

/-- `total_delay = delay + jitter`. -/
def total_delay (p : RetryPolicy) (attempt : Nat) (jitter : ℚ) : ℚ :=
  backoff_delay p attempt + jitter

structure RetryTrace (α : Type) where
  result : RetryResult α
  invocations : Nat
  sleeps : List ℚ

/-- The retry loop; `attempt` is the current index, the second argument the
number of loop iterations remaining (`max_retries - attempt`). -/
def runRetry (p : RetryPolicy) (outcomes : Nat → AttemptOutcome α)
    (jitter : Nat → ℚ) : Nat → Nat → RetryTrace α
  | _, 0 => ⟨.noAttempt, 0, []⟩
  | attempt, rem + 1 =>
    match outcomes attempt with
    | .ok a => ⟨.ok a, 1, []⟩
    | .nonRetryable => ⟨.errNonRetryable, 1, []⟩
    | .retryable =>
      if rem = 0 then ⟨.errRetryable, 1, []⟩
      else
        let t := runRetry p outcomes jitter (attempt + 1) rem
        ⟨t.result, t.invocations + 1,
          total_delay p attempt (jitter attempt) :: t.sleeps⟩

def RetryPolicy.execute_with_retry (p : RetryPolicy)
    (outcomes : Nat → AttemptOutcome α) (jitter : Nat → ℚ) : RetryTrace α :=
  runRetry p outcomes jitter 0 p.max_retries

/-! ### Failover handler (`FailoverHandler.execute_with_failover`,
src/unnamed/part_007 lines 1037-1077)

The loop walks `servers[:max_attempts]`; `TimeoutError` and `ConnectionError`
are caught and the next server is tried; `ToolNotFoundError` is caught and
breaks out of the loop (then `MCPExecutionError` is raised); any other
exception — e.g. an invalid-argument error — matches no except clause and
propagates out of the loop immediately.  `attempted` records the servers whose
`call_tool` was actually invoked, in order. -/

inductive FOutcome (α : Type) where
  | ok (a : α)
  | timeoutErr
  | connectionErr
  | toolNotFound
  | uncaught

inductive FResult (α : Type) where
  | ok (a : α)
  | mcpExecutionError
  | propagated

structure FailoverTrace (α : Type) where
  result : FResult α
  attempted : List String

def runFailover (calls : String → FOutcome α) : List String → FailoverTrace α
  | [] => ⟨.mcpExecutionError, []⟩
  | s :: rest =>
    match calls s with
    | .ok a => ⟨.ok a, [s]⟩
    | .timeoutErr =>
      let t := runFailover calls rest
      ⟨t.result, s :: t.attempted⟩
    | .connectionErr =>
      let t := runFailover calls rest
      ⟨t.result, s :: t.attempted⟩
    | .toolNotFound => ⟨.mcpExecutionError, [s]⟩
    | .uncaught => ⟨.propagated, [s]⟩

def FailoverHandler.execute_with_failover (calls : String → FOutcome α)
    (servers : List String) (max_attempts : Nat) : FailoverTrace α :=
  runFailover calls (servers.take max_attempts)

lemma runRetry_sleeps_retryable (p : RetryPolicy) (outcomes : Nat → AttemptOutcome α)
    (jitter : Nat → ℚ) :
    ∀ (rem attempt i : Nat), i < (runRetry p outcomes jitter attempt rem).sleeps.length →
      outcomes (attempt + i) = .retryable := by
  intro rem
  induction rem with
  | zero => intro attempt i h; simp [runRetry] at h
  | succ rem ih =>
    intro attempt i h
    cases hoc : outcomes attempt with
    | ok a => simp [runRetry, hoc] at h
    | nonRetryable => simp [runRetry, hoc] at h
    | retryable =>
      by_cases hrem : rem = 0
      · simp [runRetry, hoc, hrem] at h
      · simp only [runRetry, hoc, if_neg hrem, List.length_cons] at h
        cases i with
        | zero => simpa using hoc
        | succ i =>
          have := ih (attempt + 1) i (by omega)
          have harith : attempt + 1 + i = attempt + (i + 1) := by omega
          rwa [harith] at this

lemma runRetry_sleeps_get (p : RetryPolicy) (outcomes : Nat → AttemptOutcome α)
    (jitter : Nat → ℚ) :
    ∀ (rem attempt i : Nat), i < (runRetry p outcomes jitter attempt rem).sleeps.length →
      (runRetry p outcomes jitter attempt rem).sleeps.get? i =
        some (total_delay p (attempt + i) (jitter (attempt + i))) := by
  intro rem
  induction rem with
  | zero => intro attempt i h; simp [runRetry] at h
  | succ rem ih =>
    intro attempt i h
    cases hoc : outcomes attempt with
    | ok a => simp [runRetry, hoc] at h
    | nonRetryable => simp [runRetry, hoc] at h
    | retryable =>
      by_cases hrem : rem = 0
      · simp [runRetry, hoc, hrem] at h
      · simp only [runRetry, hoc, if_neg hrem, List.length_cons] at h ⊢
        cases i with
        | zero => simp
        | succ i =>
          have hi : i < (runRetry p outcomes jitter (attempt + 1) rem).sleeps.length := by
            simpa [runRetry, hoc, if_neg hrem] using Nat.lt_of_succ_lt_succ h
          have := ih (attempt + 1) i hi
          have harith : attempt + 1 + i = attempt + (i + 1) := by omega
          rw [harith] at this
          simpa using this

lemma runRetry_invocations_le (p : RetryPolicy) (outcomes : Nat → AttemptOutcome α)
    (jitter : Nat → ℚ) :
    ∀ (rem attempt : Nat), (runRetry p outcomes jitter attempt rem).invocations ≤ rem := by
  intro rem
  induction rem with
  | zero => intro attempt; simp [runRetry]
  | succ rem ih =>
    intro attempt
    cases hoc : outcomes attempt with
    | ok a => simp [runRetry, hoc]
    | nonRetryable => simp [runRetry, hoc]
    | retryable =>
      by_cases hrem : rem = 0
      · simp [runRetry, hoc, hrem]
      · simp only [runRetry, hoc, if_neg hrem]
        have := ih (attempt + 1)
        omega

/-- **C7**: the retry engine retries only retryable errors — each backoff sleep
is preceded by a retryable failure, and a non-retryable error on the first
attempt propagates immediately with exactly one invocation and no backoff —
and in the failover handler an uncaught error (e.g. invalid arguments, which
no except clause catches) or a `ToolNotFoundError` on the first server aborts
immediately: no other server is attempted. -/
theorem C7_non_retryable_propagates (p : RetryPolicy)
    (outcomes : Nat → AttemptOutcome α) (jitter : Nat → ℚ)
    (calls : String → FOutcome β) (s : String) (rest : List String)
    (max_attempts : Nat)
    (hmr : 1 ≤ p.max_retries) (hma : 1 ≤ max_attempts) :
    (outcomes 0 = .nonRetryable →
      p.execute_with_retry outcomes jitter =
        ⟨.errNonRetryable, 1, []⟩) ∧
    (∀ i, i < (p.execute_with_retry outcomes jitter).sleeps.length →
      outcomes i = .retryable) ∧
    (calls s = .uncaught →
      FailoverHandler.execute_with_failover calls (s :: rest) max_attempts =
        ⟨.propagated, [s]⟩) ∧
    (calls s = .toolNotFound →
      FailoverHandler.execute_with_failover calls (s :: rest) max_attempts =
        ⟨.mcpExecutionError, [s]⟩) := by
  obtain ⟨m, hm⟩ : ∃ m, p.max_retries = m + 1 :=
    ⟨p.max_retries - 1, by omega⟩
  obtain ⟨n, hn⟩ : ∃ n, max_attempts = n + 1 :=
    ⟨max_attempts - 1, by omega⟩
  refine ⟨?_, ?_, ?_, ?_⟩
  · intro hoc
    unfold RetryPolicy.execute_with_retry
    rw [hm]
    simp [runRetry, hoc]
  · intro i hi
    simpa using runRetry_sleeps_retryable p outcomes jitter p.max_retries 0 i hi
  · intro hcs
    unfold FailoverHandler.execute_with_failover
    rw [hn]
    simp [List.take, runFailover, hcs]
  · intro hcs
    unfold FailoverHandler.execute_with_failover
    rw [hn]
    simp [List.take, runFailover, hcs]

def pW7 : RetryPolicy :=
  { max_retries := 3, base_delay := 1, max_delay := 30, exponential_base := 2 }

def outW7 : Nat → AttemptOutcome Unit := fun _ => .nonRetryable

def callsW7u : String → FOutcome Unit := fun _ => .uncaught

def callsW7t : String → FOutcome Unit := fun _ => .toolNotFound

/-- Witness for C7: a non-retryable first outcome stops the retry loop after
one invocation with no sleeps; an uncaught (invalid-argument) or unknown-tool
error on the first server stops failover after that single server. -/
theorem C7_non_retryable_propagates_witness :
    (1 ≤ pW7.max_retries ∧ 1 ≤ 3) ∧
    pW7.execute_with_retry outW7 (fun _ => 0) = ⟨.errNonRetryable, 1, []⟩ ∧
    FailoverHandler.execute_with_failover callsW7u ["A", "B"] 3 =
      ⟨.propagated, ["A"]⟩ ∧
    FailoverHandler.execute_with_failover callsW7t ["A", "B"] 3 =
      ⟨.mcpExecutionError, ["A"]⟩ := by
  refine ⟨⟨by decide, by decide⟩, ?_, ?_, ?_⟩
  · exact (C7_non_retryable_propagates pW7 outW7 (fun _ => 0) callsW7u "A" ["B"] 3
      (by decide) (by decide)).1 rfl
  · exact (C7_non_retryable_propagates pW7 outW7 (fun _ => 0) callsW7u "A" ["B"] 3
      (by decide) (by decide)).2.2.1 rfl
  · exact (C7_non_retryable_propagates pW7 outW7 (fun _ => 0) callsW7t "A" ["B"] 3
      (by decide) (by decide)).2.2.2 rfl

def pW8 : RetryPolicy :=
  { max_retries := 2, base_delay := 40, max_delay := 30, exponential_base := 2 }

def outW8 : Nat → AttemptOutcome Unit := fun _ => .retryable

def jitW8 : Nat → ℚ := fun _ => 3

/-- **C8 counterexample**: with `base_delay = 40`, `max_delay = 30` and a
drawn jitter of 3 (within `uniform(0, delay * 0.1) = uniform(0, 3)` since the
capped delay is 30), the first sleep is `min(40 * 2^0, 30) + 3 = 33`, which
exceeds `max_delay = 30` — the jitter is added after the cap, so a slept delay
is not "at most the configured maxDelay" as the claim states. -/
theorem C8_backoff_cap_cex :
    (0 ≤ jitW8 0 ∧ jitW8 0 ≤ backoff_delay pW8 0 * (1/10)) ∧
    (pW8.execute_with_retry outW8 jitW8).sleeps = [33] ∧
    pW8.max_delay = 30 ∧ ¬ ((33 : ℚ) ≤ pW8.max_delay) := by
  refine ⟨⟨by norm_num [jitW8], ?_⟩, ?_, rfl, by norm_num [pW8]⟩
  · show (3 : ℚ) ≤ min ((40 : ℚ) * 2 ^ 0) 30 * (1/10)
    norm_num
  · show (runRetry pW8 outW8 jitW8 0 2).sleeps = [33]
    have h1 : runRetry pW8 outW8 jitW8 1 1 = ⟨.errRetryable, 1, []⟩ := by
      simp [runRetry, outW8]
    have h0 : runRetry pW8 outW8 jitW8 0 2 =
        ⟨.errRetryable, 2, [total_delay pW8 0 (jitW8 0)]⟩ := by
      simp [runRetry, outW8, h1]
    rw [h0]
    show [total_delay pW8 0 (jitW8 0)] = [33]
    norm_num [total_delay, backoff_delay, pW8, jitW8]

/-- **C8 (amended)**: each slept delay at attempt `i` equals
`min(baseDelay * exponentialBase^i, maxDelay) + jitter_i` — exponential growth
with the cap applied before the jitter is added — so with jitter drawn from
`uniform(0, delay * 0.1)` every slept delay is at most `1.1 * maxDelay` (not
`maxDelay` itself), and the loop performs at most `max_retries` invocations
before propagating the error. -/
theorem C8_backoff_shape_amended (p : RetryPolicy)
    (outcomes : Nat → AttemptOutcome α) (jitter : Nat → ℚ)
    (hjit : ∀ k, 0 ≤ jitter k ∧ jitter k ≤ backoff_delay p k * (1/10)) :
    (∀ i, i < (p.execute_with_retry outcomes jitter).sleeps.length →
      (p.execute_with_retry outcomes jitter).sleeps.get? i =
        some (min (p.base_delay * p.exponential_base ^ i) p.max_delay + jitter i)) ∧
    (∀ d ∈ (p.execute_with_retry outcomes jitter).sleeps,
      d ≤ p.max_delay * (11/10)) ∧
    (p.execute_with_retry outcomes jitter).invocations ≤ p.max_retries := by
  refine ⟨?_, ?_, ?_⟩
  · intro i hi
    simpa [total_delay, backoff_delay] using
      runRetry_sleeps_get p outcomes jitter p.max_retries 0 i hi
  · intro d hd
    obtain ⟨i, hi, hget⟩ : ∃ i, i < (p.execute_with_retry outcomes jitter).sleeps.length ∧
        (p.execute_with_retry outcomes jitter).sleeps.get? i = some d := by
      obtain ⟨⟨i, hilt⟩, hget⟩ := List.mem_iff_get.mp hd
      exact ⟨i, hilt, by rw [List.get?_eq_get hilt, hget]⟩
    have hval := runRetry_sleeps_get p outcomes jitter p.max_retries 0 i hi
    have hdval : d = total_delay p i (jitter i) := by
      have : some d = some (total_delay p (0 + i) (jitter (0 + i))) := by
        rw [← hget]
        simpa using hval
      simpa using this
    have hcap : backoff_delay p i ≤ p.max_delay := min_le_right _ _
    have hj := hjit i
    have hjcap : jitter i ≤ p.max_delay * (1/10) := by
      calc jitter i ≤ backoff_delay p i * (1/10) := hj.2
        _ ≤ p.max_delay * (1/10) := by
            apply mul_le_mul_of_nonneg_right hcap
            norm_num
    rw [hdval]
    unfold total_delay
    calc backoff_delay p i + jitter i ≤ p.max_delay + p.max_delay * (1/10) :=
          add_le_add hcap hjcap
      _ = p.max_delay * (11/10) := by ring
  · exact runRetry_invocations_le p outcomes jitter p.max_retries 0

/-- Witness for the amended C8: in the counterexample run the single slept
delay 33 is within `1.1 * maxDelay = 33` and the loop made 2 ≤ 2 invocations. -/
theorem C8_backoff_shape_amended_witness :
    (∀ k, 0 ≤ jitW8 k ∧ jitW8 k ≤ backoff_delay pW8 k * (1/10)) ∧
    (∀ d ∈ (pW8.execute_with_retry outW8 jitW8).sleeps,
      d ≤ pW8.max_delay * (11/10)) ∧
    (pW8.execute_with_retry outW8 jitW8).invocations ≤ pW8.max_retries := by
  have hjit : ∀ k, 0 ≤ jitW8 k ∧ jitW8 k ≤ backoff_delay pW8 k * (1/10) := by
    intro k
    constructor
    · norm_num [jitW8]
    · show (3 : ℚ) ≤ min ((40 : ℚ) * 2 ^ k) 30 * (1/10)
      have h40 : (30 : ℚ) ≤ 40 * 2 ^ k := by
        have h1 : (1 : ℚ) ≤ 2 ^ k := one_le_pow₀ (by norm_num)
        nlinarith
      rw [min_eq_right h40]
      norm_num
  have h := C8_backoff_shape_amended pW8 outW8 jitW8 hjit
  exact ⟨hjit, h.2.1, h.2.2⟩

/-! ### MCP server tool-call handlers (src/servers/pubchem/index.js lines
71-153; src/unnamed/part_000 lines 301-440)

Both `CallToolRequestSchema` handlers wrap the per-tool dispatch in a
try/catch.  Each per-tool body (network or computation work that may throw) is
modelled as an `Except String String` — error message or response text; an
unrecognized tool name throws `Unknown tool: <name>`; the catch-all converts
any thrown error into a returned response with `isError: true` whose JSON body
carries the error message and the tool name.  Being a total Lean function, the
handler always returns a `ToolResponse` — no exception reaches the transport. -/

inductive RContent where
  | payload (text : String)
  | errorBody (error : String) (tool : String)
deriving DecidableEq

structure ToolResponse where
  content : RContent
  isError : Bool
deriving DecidableEq

/-- Tool dispatch of the PubChem server (if-chain over the two tool names). -/
def dispatchPubchem (search_compounds_by_name get_compound_properties :
    Except String String) (name : String) : Except String String :=
  if name = "search_compounds_by_name" then search_compounds_by_name
  else if name = "get_compound_properties" then get_compound_properties
  else .error ("Unknown tool: " ++ name)

/-- Tool dispatch of the Data Analysis server (if-chain over six tool names). -/
def dispatchDataAnalysis
    (calculate_statistics calculate_correlation perform_linear_regression
      analyze_sequence calculate_molecular_descriptors convert_units :
      Except String String) (name : String) : Except String String :=
  if name = "calculate_statistics" then calculate_statistics
  else if name = "calculate_correlation" then calculate_correlation
  else if name = "perform_linear_regression" then perform_linear_regression
  else if name = "analyze_sequence" then analyze_sequence
  else if name = "calculate_molecular_descriptors" then calculate_molecular_descriptors
  else if name = "convert_units" then convert_units
  else .error ("Unknown tool: " ++ name)

/-- The shared try/catch shape of both handlers. -/
def handleToolCall (dispatch : String → Except String String) (name : String) :
    ToolResponse :=
  match dispatch name with
  | .ok text => { content := .payload text, isError := false }
  | .error msg => { content := .errorBody msg name, isError := true }

/-- **C9**: for every tool-call request to the PubChem and Data Analysis
server adapters the handler returns a response (it is a total function into
`ToolResponse`) and never propagates an exception: any error thrown by a tool
body is returned as a response with `isError` set and a body carrying the
error message and the tool name; an unrecognized tool name yields the
`Unknown tool: <name>` error response; successful tool bodies are returned as
non-error responses. -/
theorem C9_handlers_catch_all (pc1 pc2 d1 d2 d3 d4 d5 d6 : Except String String)
    (name : String) :
    (∀ msg, dispatchPubchem pc1 pc2 name = .error msg →
      handleToolCall (dispatchPubchem pc1 pc2) name =
        { content := .errorBody msg name, isError := true }) ∧
    (∀ text, dispatchPubchem pc1 pc2 name = .ok text →
      handleToolCall (dispatchPubchem pc1 pc2) name =
        { content := .payload text, isError := false }) ∧
    (name ≠ "search_compounds_by_name" → name ≠ "get_compound_properties" →
      handleToolCall (dispatchPubchem pc1 pc2) name =
        { content := .errorBody ("Unknown tool: " ++ name) name, isError := true }) ∧
    (∀ msg, dispatchDataAnalysis d1 d2 d3 d4 d5 d6 name = .error msg →
      handleToolCall (dispatchDataAnalysis d1 d2 d3 d4 d5 d6) name =
        { content := .errorBody msg name, isError := true }) ∧
    (name ≠ "calculate_statistics" → name ≠ "calculate_correlation" →
      name ≠ "perform_linear_regression" → name ≠ "analyze_sequence" →
      name ≠ "calculate_molecular_descriptors" → name ≠ "convert_units" →
      handleToolCall (dispatchDataAnalysis d1 d2 d3 d4 d5 d6) name =
        { content := .errorBody ("Unknown tool: " ++ name) name, isError := true }) := by
  refine ⟨?_, ?_, ?_, ?_, ?_⟩
  · intro msg hmsg
    simp [handleToolCall, hmsg]
  · intro text htext
    simp [handleToolCall, htext]
  · intro h1 h2
    simp [handleToolCall, dispatchPubchem, h1, h2]
  · intro msg hmsg
    simp [handleToolCall, hmsg]
  · intro h1 h2 h3 h4 h5 h6
    simp [handleToolCall, dispatchDataAnalysis, h1, h2, h3, h4, h5, h6]

/-- Witness for C9: a failing PubChem search returns an `isError` response with
the message and tool name; the unknown tool name `"foo"` returns the
`Unknown tool: foo` error response on both servers. -/
theorem C9_handlers_catch_all_witness :
    (dispatchPubchem (.error "Network error") (.ok "x") "search_compounds_by_name" =
      .error "Network error") ∧
    handleToolCall (dispatchPubchem (.error "Network error") (.ok "x"))
        "search_compounds_by_name" =
      { content := .errorBody "Network error" "search_compounds_by_name",
        isError := true } ∧
    handleToolCall (dispatchPubchem (.ok "a") (.ok "b")) "foo" =
      { content := .errorBody ("Unknown tool: " ++ "foo") "foo", isError := true } ∧
    handleToolCall
        (dispatchDataAnalysis (.ok "a") (.ok "b") (.ok "c") (.ok "d") (.ok "e")
          (.ok "f")) "foo" =
      { content := .errorBody ("Unknown tool: " ++ "foo") "foo", isError := true } := by
  refine ⟨rfl, ?_, ?_, ?_⟩
  · exact (C9_handlers_catch_all (.error "Network error") (.ok "x") (.ok "a")
      (.ok "b") (.ok "c") (.ok "d") (.ok "e") (.ok "f")
      "search_compounds_by_name").1 "Network error" rfl
  · exact (C9_handlers_catch_all (.ok "a") (.ok "b") (.ok "a") (.ok "b") (.ok "c")
      (.ok "d") (.ok "e") (.ok "f") "foo").2.2.1 (by decide) (by decide)
  · exact (C9_handlers_catch_all (.ok "a") (.ok "b") (.ok "a") (.ok "b") (.ok "c")
      (.ok "d") (.ok "e") (.ok "f") "foo").2.2.2.2 (by decide) (by decide)
      (by decide) (by decide) (by decide) (by decide)

/-! ### Result optimizer (`ResultOptimizer`, src/unnamed/part_007 lines
993-1005)

`compress_result` gzip-compresses results longer than 10,000 characters and
stores shorter results as their raw encoded bytes; `decompress_result` tries
`gzip.decompress` and, when that raises, falls back to decoding the raw bytes.
The byte-level codecs are parameters of the model: `encode`/`decode` stand for
`str.encode`/`bytes.decode`, and `gziprt`/`gunzip` for the gzip library, with
`gunzip` returning `none` where `gzip.decompress` raises (input not a valid
gzip stream).  The hypothesis that raw encodings are never valid gzip streams
reflects UTF-8: an encoded `str` cannot start with the gzip magic `1f 8b`,
because `0x8b` is a continuation byte and never starts the character after the
one-byte character `0x1f`. -/

structure Codec where
  encode : String → List Nat
  decode : List Nat → String
  gzipc : String → List Nat
  gunzip : List Nat → Option String

def ResultOptimizer.compress_result (c : Codec) (result : String) : List Nat :=
  if 10000 < result.length then c.gzipc result else c.encode result

def ResultOptimizer.decompress_result (c : Codec) (data : List Nat) : String :=
  match c.gunzip data with
  | some s => s
  | none => c.decode data

/-- **C10**: decompressing a compressed result returns the original result,
for results over the 10,000-character threshold (stored gzip-compressed) and
for shorter results (stored as raw encoded bytes), given the codec laws: gzip
round-trips, raw encodings are never valid gzip streams, and decoding inverts
encoding. -/
theorem C10_compress_roundtrip (c : Codec)
    (hgzip : ∀ s, c.gunzip (c.gzipc s) = some s)
    (hraw : ∀ s, c.gunzip (c.encode s) = none)
    (hdec : ∀ s, c.decode (c.encode s) = s)
    (r : String) :
    ResultOptimizer.decompress_result c (ResultOptimizer.compress_result c r) = r ∧
    (10000 < r.length → ResultOptimizer.compress_result c r = c.gzipc r) ∧
    (¬ 10000 < r.length → ResultOptimizer.compress_result c r = c.encode r) := by
  unfold ResultOptimizer.compress_result
  by_cases hlen : 10000 < r.length
  · refine ⟨?_, fun _ => by rw [if_pos hlen], fun h => absurd hlen h⟩
    rw [if_pos hlen]
    unfold ResultOptimizer.decompress_result
    rw [hgzip r]
  · refine ⟨?_, fun h => absurd h hlen, fun _ => by rw [if_neg hlen]⟩
    rw [if_neg hlen]
    unfold ResultOptimizer.decompress_result
    rw [hraw r, hdec r]

/-- A concrete codec for the witness: bytes are modelled as naturals; the gzip
stream is tagged with 2000000 (above every character code, so a raw encoding
can never collide with it). -/
def codecW : Codec where
  encode s := s.data.map Char.toNat
  decode bs := String.mk (bs.map Char.ofNat)
  gzipc s := 2000000 :: s.data.map Char.toNat
  gunzip bs :=
    match bs with
    | 2000000 :: rest => some (String.mk (rest.map Char.ofNat))
    | _ => none

lemma codecW_decode_encode (s : String) : codecW.decode (codecW.encode s) = s := by
  show String.mk ((s.data.map Char.toNat).map Char.ofNat) = s
  rw [List.map_map]
  have : (Char.ofNat ∘ Char.toNat) = id := by
    funext c
    exact Char.ofNat_toNat c
  rw [this, List.map_id]

lemma codecW_gunzip_encode (s : String) : codecW.gunzip (codecW.encode s) = none := by
  show codecW.gunzip (s.data.map Char.toNat) = none
  cases hd : s.data with
  | nil => rfl
  | cons ch rest =>
    have hlt : ch.toNat < 1114112 := by
      rcases ch.valid with h | ⟨_, h2⟩
      · exact Nat.lt_trans (by exact_mod_cast h) (by norm_num)
      · exact_mod_cast h2
    have hne : ch.toNat ≠ 2000000 := by omega
    show codecW.gunzip (ch.toNat :: rest.map Char.toNat) = none
    simp only [codecW]
    split
    · next heq =>
      exact absurd (by injection heq) hne
    · rfl

/-- Witness for C10: with the concrete codec, a short result round-trips
through `compress_result`/`decompress_result` unchanged and is stored as its
raw encoding. -/
theorem C10_compress_roundtrip_witness :
    (codecW.gunzip (codecW.gzipc "hello") = some "hello" ∧
      codecW.gunzip (codecW.encode "hello") = none ∧
      codecW.decode (codecW.encode "hello") = "hello") ∧
    ResultOptimizer.decompress_result codecW
      (ResultOptimizer.compress_result codecW "hello") = "hello" := by
  have hgzip : ∀ s, codecW.gunzip (codecW.gzipc s) = some s := by
    intro s
    show some (String.mk ((s.data.map Char.toNat).map Char.ofNat)) = some s
    have := codecW_decode_encode s
    simpa [codecW] using this
  refine ⟨⟨hgzip "hello", codecW_gunzip_encode "hello", codecW_decode_encode "hello"⟩, ?_⟩
  exact (C10_compress_roundtrip codecW hgzip codecW_gunzip_encode
    codecW_decode_encode "hello").1

end Orchestration
